import Mathlib

/-!
Verification development for the iDA-projectile interception controller.

The repository ships two header files (`IronDomeApp.hpp`,
`projectile/ProjectileGenerator.hpp`) that declare the control pipeline,
the interception state machine and the projectile simulation; the method
bodies live outside the shipped sources.  Every operation below is
therefore modelled from the specification document, faithful to its
wording, and the claims are settled against these models.
-/

namespace IronDome

/-- Modelled from the spec: a 3-vector of reals standing for
`Eigen::Vector3d` (end-effector positions, velocities, task-space error
vectors).  The bodies using it are missing from the shipped headers. -/
structure Vec3 where
  x : ℝ
  y : ℝ
  z : ℝ

noncomputable def Vec3.add (a b : Vec3) : Vec3 := ⟨a.x + b.x, a.y + b.y, a.z + b.z⟩

noncomputable def Vec3.sub (a b : Vec3) : Vec3 := ⟨a.x - b.x, a.y - b.y, a.z - b.z⟩

noncomputable def Vec3.smul (c : ℝ) (a : Vec3) : Vec3 := ⟨c * a.x, c * a.y, c * a.z⟩

/-- Euclidean magnitude of a 3-vector, `v.norm()` in Eigen. -/
noncomputable def Vec3.mag (a : Vec3) : ℝ := Real.sqrt (a.x ^ 2 + a.y ^ 2 + a.z ^ 2)

/-- 3×3 rotation matrices appear only as inputs to the orientation-error
map; rows and columns indexed by `Fin 3`. -/
def Mat3 : Type := Fin 3 → Fin 3 → ℝ

/-- Modelled from the spec: the control-mode tag selecting one of the four
interchangeable strategies of the control law engine (the private-method
dispatch `fullTaskSpaceControl` / `incrementalTaskSpaceControl` /
`resolvedMotionRateControl` / `jointSpaceControl` whose bodies are missing
from the shipped headers). -/
inductive ControlMode where
  | fullTaskSpace
  | incrementalTaskSpace
  | resolvedMotionRate
  | jointSpace
deriving DecidableEq

/-- Modelled from the spec: the robot-state block read by one control
cycle — joint position/velocity, end-effector position/rotation,
linear/angular velocity, the Jacobian (stored as its `dof` columns, each
a 6-vector), and the generalized gravity force vector `g_q`. -/
structure RobotState where
  q : List ℝ
  dq : List ℝ
  x_c : Vec3
  v : Vec3
  R_c : Mat3
  omega : Vec3
  J : List (Fin 6 → ℝ)
  g_q : List ℝ

/-- Modelled from the spec: the desired setpoint produced by the state
machine — desired end-effector position/rotation and desired joint
positions. -/
structure Setpoint where
  x_d : Vec3
  R_d : Mat3
  q_d : List ℝ

/-- Modelled from the spec: the control gains and limiting parameters —
task-space PD gains, joint-space PD gain vectors, joint-friction damping,
per-joint torque limits, joint-limit potential parameters (lower/upper
joint bounds, activation margin, potential gain, saturation `q_sat`),
and the incremental-mode maximum step sizes. -/
structure Gains where
  kp_p : ℝ
  kv_p : ℝ
  kp_r : ℝ
  kv_r : ℝ
  kp_q : List ℝ
  kv_q : List ℝ
  kv_friction : ℝ
  tau_limit : List ℝ
  q_min : List ℝ
  q_max : List ℝ
  jl_margin : ℝ
  jl_gain : ℝ
  q_sat : List ℝ
  max_step_pos : ℝ
  max_step_rot : ℝ

/-- Modelled from the spec: the incremental-mode magnitude clamp — a
vector whose magnitude exceeds the configured maximum step `s` is scaled
down to magnitude `s` keeping its direction, otherwise passed through
unchanged. -/
noncomputable def clampMag (s : ℝ) (v : Vec3) : Vec3 :=
  if v.mag ≤ s then v else Vec3.smul (s / v.mag) v

/-- Task-space position error `dx = x_current − x_desired`. -/
noncomputable def posErr (rs : RobotState) (sp : Setpoint) : Vec3 :=
  Vec3.sub rs.x_c sp.x_d

/-- Modelled from the spec: the stacked 6-dimensional task-space force
`[F_p; F_r]` with `F_p = −kp_p·dx − kv_p·v` and
`F_r = −kp_r·dphi − kv_r·ω`. -/
noncomputable def taskForce (g : Gains) (dx dphi vlin om : Vec3) : Fin 6 → ℝ :=
  ![-(g.kp_p * dx.x) - g.kv_p * vlin.x,
    -(g.kp_p * dx.y) - g.kv_p * vlin.y,
    -(g.kp_p * dx.z) - g.kv_p * vlin.z,
    -(g.kp_r * dphi.x) - g.kv_r * om.x,
    -(g.kp_r * dphi.y) - g.kv_r * om.y,
    -(g.kp_r * dphi.z) - g.kv_r * om.z]

/-- `Jᵀ·F`: one joint-torque entry per Jacobian column. -/
noncomputable def jacobianTranspose (J : List (Fin 6 → ℝ)) (F : Fin 6 → ℝ) : List ℝ :=
  J.map (fun col => ∑ i, col i * F i)

/-- The stacked 6-dimensional task-space error `[dx; dphi]`. -/
noncomputable def errVec6 (dx dphi : Vec3) : Fin 6 → ℝ :=
  ![dx.x, dx.y, dx.z, dphi.x, dphi.y, dphi.z]

/-- Modelled from the spec: full task-space control — torque
`Jᵀ·[F_p; F_r]` from the unclamped task-space errors.  The
orientation-error map (axis-angle/log-map of the relative rotation) is
kept as the abstract parameter `oerr` because its body is missing from
the shipped headers. -/
noncomputable def fullTaskSpaceControl (oerr : Mat3 → Mat3 → Vec3)
    (rs : RobotState) (sp : Setpoint) (g : Gains) : List ℝ :=
  jacobianTranspose rs.J
    (taskForce g (posErr rs sp) (oerr rs.R_c sp.R_d) rs.v rs.omega)

/-- Modelled from the spec: incremental task-space control — identical to
full task-space control except that `dx` and `dphi` are clamped to the
configured maximum step magnitudes before conversion to force. -/
noncomputable def incrementalTaskSpaceControl (oerr : Mat3 → Mat3 → Vec3)
    (rs : RobotState) (sp : Setpoint) (g : Gains) : List ℝ :=
  jacobianTranspose rs.J
    (taskForce g (clampMag g.max_step_pos (posErr rs sp))
      (clampMag g.max_step_rot (oerr rs.R_c sp.R_d)) rs.v rs.omega)

/-- Modelled from the spec: resolved-motion-rate control — the task-space
error vectors are mapped through the Jacobian transpose into joint-space
error terms, then PD control is applied entirely in joint space with the
joint-space gains. -/
noncomputable def resolvedMotionRateControl (oerr : Mat3 → Mat3 → Vec3)
    (rs : RobotState) (sp : Setpoint) (g : Gains) : List ℝ :=
  let e := jacobianTranspose rs.J (errVec6 (posErr rs sp) (oerr rs.R_c sp.R_d))
  List.zipWith (fun gains edq => -(gains.1 * edq.1) - gains.2 * edq.2)
    (g.kp_q.zip g.kv_q) (e.zip rs.dq)

/-- Modelled from the spec: joint-space control —
`tau = kp_q·(q_desired − q) − kv_q·dq`, componentwise. -/
noncomputable def jointSpaceControl (rs : RobotState) (sp : Setpoint) (g : Gains) : List ℝ :=
  List.zipWith (fun gains qs => gains.1 * (qs.1 - qs.2.1) - gains.2 * qs.2.2)
    (g.kp_q.zip g.kv_q) (sp.q_d.zip (rs.q.zip rs.dq))

/-- The base torque of the strategy selected by the mode tag. -/
noncomputable def baseTorque (oerr : Mat3 → Mat3 → Vec3)
    (rs : RobotState) (sp : Setpoint) (g : Gains) : ControlMode → List ℝ
  | ControlMode.fullTaskSpace => fullTaskSpaceControl oerr rs sp g
  | ControlMode.incrementalTaskSpace => incrementalTaskSpaceControl oerr rs sp g
  | ControlMode.resolvedMotionRate => resolvedMotionRateControl oerr rs sp g
  | ControlMode.jointSpace => jointSpaceControl rs sp g

/-- Modelled from the spec: stage (1) — add the generalized gravity
compensation `g_q` to the base torque. -/
noncomputable def applyGravityCompensation (g_q tau : List ℝ) : List ℝ :=
  List.zipWith (fun ti gi => ti + gi) tau g_q

/-- Modelled from the spec: stage (2) — subtract the joint-friction
damping `kv_friction·dq`. -/
noncomputable def applyJointFriction (kv_friction : ℝ) (dq tau : List ℝ) : List ℝ :=
  List.zipWith (fun ti di => ti - kv_friction * di) tau dq

/-- Modelled from the spec: the per-joint joint-limit-avoidance restoring
torque — zero in the joint's interior, a repulsive term growing linearly
with penetration of the activation margin near either bound, clamped in
magnitude by the saturation value. -/
noncomputable def jointLimitTorque (qmin qmax margin gain sat qi : ℝ) : ℝ :=
  if qi < qmin + margin then min sat (gain * (qmin + margin - qi))
  else if qmax - margin < qi then -(min sat (gain * (qi - (qmax - margin))))
  else 0

/-- Modelled from the spec: stage (3) — add the joint-limit-avoidance
restoring torque computed per joint from the repulsive potential. -/
noncomputable def applyJointLimitPotential (g : Gains) (q tau : List ℝ) : List ℝ :=
  List.zipWith (fun ti lims =>
      ti + jointLimitTorque lims.2.1 lims.2.2.1 g.jl_margin g.jl_gain lims.2.2.2 lims.1)
    tau (q.zip (g.q_min.zip (g.q_max.zip g.q_sat)))

/-- Modelled from the spec: stage (4) — independently clamp each joint's
torque to its configured limit (hard saturation of each component). -/
noncomputable def applyTorqueLimits (limits tau : List ℝ) : List ℝ :=
  List.zipWith (fun li ti => max (-li) (min li ti)) limits tau

/-- Modelled from the spec: one control-cycle torque computation
`computeTorque(robotState, desiredSetpoint, gains, mode)` — the selected
strategy's base torque followed by the four compensation/limiting stages
in their fixed order. -/
noncomputable def computeTorque (oerr : Mat3 → Mat3 → Vec3)
    (rs : RobotState) (sp : Setpoint) (g : Gains) (m : ControlMode) : List ℝ :=
  applyTorqueLimits g.tau_limit
    (applyJointLimitPotential g rs.q
      (applyJointFriction g.kv_friction rs.dq
        (applyGravityCompensation rs.g_q
          (baseTorque oerr rs sp g m))))

/-- Modelled from the spec: a robot state, setpoint and gain block are
valid for `dof` degrees of freedom when every joint-space vector has
exactly `dof` entries and the per-joint torque limits are nonnegative. -/
def ValidFor (dof : ℕ) (rs : RobotState) (sp : Setpoint) (g : Gains) : Prop :=
  rs.q.length = dof ∧ rs.dq.length = dof ∧ rs.J.length = dof ∧
  rs.g_q.length = dof ∧ sp.q_d.length = dof ∧ g.kp_q.length = dof ∧
  g.kv_q.length = dof ∧ g.tau_limit.length = dof ∧ g.q_min.length = dof ∧
  g.q_max.length = dof ∧ g.q_sat.length = dof ∧
  ∀ l ∈ g.tau_limit, 0 ≤ l

/-- Identity orientation-error map used for concrete evaluation. -/
noncomputable def oerr0 : Mat3 → Mat3 → Vec3 := fun _ _ => ⟨0, 0, 0⟩

/-- Zero 3×3 matrix used for concrete evaluation. -/
noncomputable def mat0 : Mat3 := fun _ _ => 0

/-- Concrete one-joint robot state used for witnesses. -/
noncomputable def rs0 : RobotState where
  q := [0]
  dq := [0]
  x_c := ⟨0, 0, 0⟩
  v := ⟨0, 0, 0⟩
  R_c := mat0
  omega := ⟨0, 0, 0⟩
  J := [fun _ => 0]
  g_q := [0]

/-- Concrete setpoint used for witnesses. -/
noncomputable def sp0 : Setpoint where
  x_d := ⟨0, 0, 0⟩
  R_d := mat0
  q_d := [0]

/-- Concrete gain block used for witnesses. -/
noncomputable def g0 : Gains where
  kp_p := 1
  kv_p := 1
  kp_r := 1
  kv_r := 1
  kp_q := [1]
  kv_q := [1]
  kv_friction := 1
  tau_limit := [1]
  q_min := [0]
  q_max := [1]
  jl_margin := 0
  jl_gain := 1
  q_sat := [1]
  max_step_pos := 1
  max_step_rot := 1

/-- A 3-vector of rationals used for the projectile model (timestamps and
positions of the ballistic trajectory bookkeeping). -/
structure Vec3q where
  x : ℚ
  y : ℚ
  z : ℚ
deriving DecidableEq, Repr

/-- The projectile record of `ProjectileGenerator.hpp`: ID number, launch
time, initial position/velocity/acceleration, current measured
position. -/
structure SimProjectile where
  id : ℕ
  t0 : ℚ
  p0 : Vec3q
  v0 : Vec3q
  a0 : Vec3q
  p : Vec3q
deriving DecidableEq, Repr

/-- Modelled from the spec: the ballistic trajectory model
`p(t) = p0 + v0·(t−t0) + ½·a0·(t−t0)²` used to predict a projectile's
position; its evaluation code is missing from the shipped headers. -/
def predictPos (pr : SimProjectile) (t : ℚ) : Vec3q :=
  let dt := t - pr.t0
  ⟨pr.p0.x + pr.v0.x * dt + pr.a0.x * dt ^ 2 / 2,
   pr.p0.y + pr.v0.y * dt + pr.a0.y * dt ^ 2 / 2,
   pr.p0.z + pr.v0.z * dt + pr.a0.z * dt ^ 2 / 2⟩

/-- Modelled from the spec: `SimProjectile::isExpired` — a projectile is
expired exactly when its predicted trajectory has already crossed the
ground plane (predicted z ≤ 0 at the current time) or no new measurement
has arrived within the configured timeout.  The body is missing from the
shipped headers, so the last-measurement time, the timeout and the
current time are kept as explicit arguments. -/
def isExpired (pr : SimProjectile) (lastMeas timeout t : ℚ) : Bool :=
  decide ((predictPos pr t).z ≤ 0) || decide (timeout < t - lastMeas)

/-- One tracked entry of the projectile manager: the projectile plus the
time of its most recent measurement. -/
structure Tracked where
  proj : SimProjectile
  lastMeas : ℚ

/-- Modelled from the spec: the keyed collection of tracked projectiles
owned by the estimator (`ProjectileManager`, whose header is not among
the shipped sources), with its configured expiry timeout. -/
structure ProjectileManager where
  entries : List Tracked
  timeout : ℚ

/-- Modelled from the spec: `tick(currentTime)` removes expired entries
from the mapping. -/
def ProjectileManager.tick (m : ProjectileManager) (t : ℚ) : ProjectileManager :=
  { m with entries :=
      m.entries.filter (fun e => !(isExpired e.proj e.lastMeas m.timeout t)) }

/-- Modelled from the spec: `snapshot()` returns the current mapping of
tracked projectiles as a read-only view. -/
def ProjectileManager.snapshot (m : ProjectileManager) : List Tracked :=
  m.entries

/-- Concrete projectile landing at t = 2: launched at t0 = 0 from the
origin with upward speed 49/5 under gravity −49/5. -/
def prLand : SimProjectile where
  id := 0
  t0 := 0
  p0 := ⟨0, 0, 0⟩
  v0 := ⟨1, 0, 49/5⟩
  a0 := ⟨0, 0, -49/5⟩
  p := ⟨0, 0, 0⟩

/-- A fitted trajectory estimate: initial position and velocity (the
acceleration is fixed to gravity). -/
structure Estimate where
  p0 : Vec3q
  v0 : Vec3q
deriving DecidableEq, Repr

/-- Modelled from the spec: one-dimensional least-squares line fit
`y ≈ intercept + slope·t` over `(t, y)` samples, the per-axis core of the
trajectory refit; returns none when the normal equations are singular
(fewer than two distinct timestamps). -/
def fitAxis (samples : List (ℚ × ℚ)) : Option (ℚ × ℚ) :=
  let n : ℚ := samples.length
  let St := (samples.map (fun s => s.1)).sum
  let Stt := (samples.map (fun s => s.1 ^ 2)).sum
  let Sy := (samples.map (fun s => s.2)).sum
  let Sty := (samples.map (fun s => s.1 * s.2)).sum
  let D := n * Stt - St ^ 2
  if D = 0 then none
  else some ((Sy * Stt - St * Sty) / D, (n * Sty - St * Sy) / D)

/-- Subtract the known gravity contribution `½·a·t²` from a measurement so
the remaining model is linear in `(p0, v0)`. -/
def gravCorrect (a : ℚ) (s : ℚ × ℚ) : ℚ × ℚ :=
  (s.1, s.2 - a * s.1 ^ 2 / 2)

/-- Modelled from the spec: the estimator refit — least squares for
`p(t) = p0 + v0·t + ½·a0·t²` with `a0` fixed to gravity over the
accumulated measurement history; fewer than two samples (or coincident
timestamps) yield no usable estimate, with no error raised. -/
def fit (grav : Vec3q) (samples : List (ℚ × Vec3q)) : Option Estimate :=
  if samples.length < 2 then none
  else
    match fitAxis (samples.map (fun s => gravCorrect grav.x (s.1, s.2.x))),
          fitAxis (samples.map (fun s => gravCorrect grav.y (s.1, s.2.y))),
          fitAxis (samples.map (fun s => gravCorrect grav.z (s.1, s.2.z))) with
    | some fx, some fy, some fz =>
        some ⟨⟨fx.1, fy.1, fz.1⟩, ⟨fx.2, fy.2, fz.2⟩⟩
    | _, _, _ => none

/-- A selection candidate: the tracked projectile, whether its fit is
confirmed, and its earliest reachable intercept time when one exists. -/
structure Candidate where
  proj : SimProjectile
  confirmed : Bool
  itime : Option ℚ

/-- A candidate is eligible for selection when it is confirmed and has a
reachable intercept time. -/
def eligible (c : Candidate) : Bool := c.confirmed && c.itime.isSome

/-- Modelled from the spec: the strict selection preference — earlier
intercept time wins, ties broken by lower identifier. -/
def betterCand (c b : Candidate) : Bool :=
  match c.itime, b.itime with
  | some tc, some tb =>
      decide (tc < tb) || (decide (tc = tb) && decide (c.proj.id < b.proj.id))
  | some _, none => true
  | none, _ => false

/-- One step of the selection scan: an eligible candidate replaces the
accumulator when strictly preferred. -/
def selStep (acc : Option Candidate) (c : Candidate) : Option Candidate :=
  match eligible c, acc with
  | false, _ => acc
  | true, none => some c
  | true, some b => if betterCand c b then some c else some b

/-- Modelled from the spec: `TargetSelector::select` — among confirmed
projectiles with a reachable intercept time, choose the one with the
smallest such time, ties broken by lowest identifier; none when no
candidate is eligible. -/
def select (cands : List Candidate) : Option Candidate :=
  cands.foldl selStep none

/-- The configured reachable workspace: a sphere given by its center and
squared radius. -/
structure Workspace where
  center : Vec3q
  radius2 : ℚ

/-- Squared Euclidean distance of rational 3-vectors. -/
def dist2 (a b : Vec3q) : ℚ :=
  (a.x - b.x) ^ 2 + (a.y - b.y) ^ 2 + (a.z - b.z) ^ 2

/-- Whether a point lies inside the reachable workspace. -/
def reachableWS (ws : Workspace) (p : Vec3q) : Bool :=
  decide (dist2 p ws.center ≤ ws.radius2)

/-- `t` is the earliest reachable intercept time of a projectile after
`now`: the smallest time after `now` at which the predicted position lies
inside the workspace. -/
def IsEarliestIntercept (ws : Workspace) (pr : SimProjectile) (now t : ℚ) : Prop :=
  now < t ∧ reachableWS ws (predictPos pr t) = true ∧
  ∀ u, now < u → reachableWS ws (predictPos pr u) = true → t ≤ u

/-- Concrete projectile crossing the workspace center exactly at t = 1. -/
def projA : SimProjectile where
  id := 1
  t0 := 0
  p0 := ⟨-1, 0, 0⟩
  v0 := ⟨1, 0, 0⟩
  a0 := ⟨0, 0, 0⟩
  p := ⟨-1, 0, 0⟩

/-- Concrete second projectile, unconfirmed. -/
def projB : SimProjectile where
  id := 2
  t0 := 0
  p0 := ⟨5, 5, 5⟩
  v0 := ⟨0, 0, 0⟩
  a0 := ⟨0, 0, 0⟩
  p := ⟨5, 5, 5⟩

/-- Point workspace at the origin. -/
def ws0 : Workspace where
  center := ⟨0, 0, 0⟩
  radius2 := 0

/-- Concrete candidate list: one confirmed reachable projectile and one
unconfirmed one. -/
def cands0 : List Candidate :=
  [⟨projA, true, some 1⟩, ⟨projB, false, none⟩]

/-- Modelled from the spec: the interception mode enumeration. -/
inductive InterceptionMode where
  | READY
  | TRACKING
  | INTERCEPTING
  | RECOVERING
deriving DecidableEq, Repr

/-- The state-machine state: current mode and the nullable reference to
the target projectile (by identifier). -/
structure SMState where
  mode : InterceptionMode
  target : Option ℕ
deriving DecidableEq, Repr

/-- The per-cycle inputs of one state-machine evaluation: the selector
result, whether the predicted time-to-intercept is below the threshold,
whether the current target expired or became unreachable, whether the
predicted intercept time has elapsed, and whether the robot is within
tolerance of the ready configuration. -/
structure SMInput where
  selected : Option ℕ
  withinThreshold : Bool
  targetInvalid : Bool
  interceptElapsed : Bool
  atReady : Bool

/-- Modelled from the spec: one evaluation of the interception state
machine.  READY acquires a target from the selector and moves to
TRACKING; TRACKING falls back to READY when the target is invalidated
and advances to INTERCEPTING below the time threshold; INTERCEPTING
moves to RECOVERING once the intercept time has elapsed; RECOVERING
returns to READY at the ready configuration.  The body of
`IronDomeApp::stateMachine` is missing from the shipped headers. -/
def stateMachine (inp : SMInput) (s : SMState) : SMState :=
  match s.mode with
  | InterceptionMode.READY =>
      match inp.selected with
      | some i => ⟨InterceptionMode.TRACKING, some i⟩
      | none => ⟨InterceptionMode.READY, none⟩
  | InterceptionMode.TRACKING =>
      if inp.targetInvalid then ⟨InterceptionMode.READY, none⟩
      else if inp.withinThreshold then ⟨InterceptionMode.INTERCEPTING, s.target⟩
      else ⟨InterceptionMode.TRACKING, s.target⟩
  | InterceptionMode.INTERCEPTING =>
      if inp.interceptElapsed then ⟨InterceptionMode.RECOVERING, none⟩
      else ⟨InterceptionMode.INTERCEPTING, s.target⟩
  | InterceptionMode.RECOVERING =>
      if inp.atReady then ⟨InterceptionMode.READY, none⟩
      else ⟨InterceptionMode.RECOVERING, none⟩

/-- The claimed invariant: the target reference is null whenever the mode
is READY or RECOVERING. -/
def TargetInv (s : SMState) : Prop :=
  (s.mode = InterceptionMode.READY ∨ s.mode = InterceptionMode.RECOVERING) →
    s.target = none

/-- States reachable from the initial READY state by state-machine
evaluations. -/
inductive SMReach : SMState → Prop where
  | init : SMReach ⟨InterceptionMode.READY, none⟩
  | step (s : SMState) (inp : SMInput) : SMReach s → SMReach (stateMachine inp s)

/-- Concrete state-machine input used for witnesses. -/
def inp0 : SMInput where
  selected := some 5
  withinThreshold := false
  targetInvalid := false
  interceptElapsed := false
  atReady := false

/-- Modelled from the spec: the mutex-guarded shared state block touched
by one control-loop iteration — robot state, desired setpoint, gains,
control mode, state-machine state, commanded torque, the pause flag, and
the iteration counter. -/
structure AppState where
  robot : RobotState
  setpoint : Setpoint
  gains : Gains
  cmode : ControlMode
  sm : SMState
  tau : List ℝ
  paused : Bool
  iter : ℕ

/-- Modelled from the spec: the desired setpoint for the current mode —
the ready configuration in READY/RECOVERING, the predicted intercept
pose in TRACKING, and the locked previous setpoint in INTERCEPTING. -/
def setpointFor (readySp interceptSp : Setpoint) (sm : SMState)
    (prev : Setpoint) : Setpoint :=
  match sm.mode with
  | InterceptionMode.READY => readySp
  | InterceptionMode.RECOVERING => readySp
  | InterceptionMode.TRACKING => interceptSp
  | InterceptionMode.INTERCEPTING => prev

/-- Modelled from the spec: one control-loop iteration against the shared
state.  While the pause flag is set the state machine and control output
are frozen in place (only the loop counter advances and reads continue);
otherwise the state machine is evaluated, the setpoint updated and the
torque recomputed. -/
noncomputable def controlCycle (oerr : Mat3 → Mat3 → Vec3) (inp : SMInput)
    (readySp interceptSp : Setpoint) (s : AppState) : AppState :=
  if s.paused then { s with iter := s.iter + 1 }
  else
    let sm2 := stateMachine inp s.sm
    let sp2 := setpointFor readySp interceptSp sm2 s.setpoint
    { s with
      sm := sm2
      setpoint := sp2
      tau := computeTorque oerr s.robot sp2 s.gains s.cmode
      iter := s.iter + 1 }

/-- Concrete application state used for witnesses, unpaused. -/
noncomputable def app1 : AppState where
  robot := rs0
  setpoint := sp0
  gains := g0
  cmode := ControlMode.jointSpace
  sm := ⟨InterceptionMode.READY, none⟩
  tau := []
  paused := false
  iter := 0

/-- Concrete paused application state agreeing with `app1` on the control
inputs but differing on every unrelated field. -/
noncomputable def app2 : AppState :=
  { app1 with
      sm := ⟨InterceptionMode.RECOVERING, none⟩,
      tau := [1],
      paused := true,
      iter := 7 }

/-- The torque computed by one cycle as a function of the shared state. -/
noncomputable def computeTorqueOfApp (oerr : Mat3 → Mat3 → Vec3)
    (s : AppState) : List ℝ :=
  computeTorque oerr s.robot s.setpoint s.gains s.cmode

/-- The randomized quantities of one launch draw: Poisson inter-arrival
time and the normally-distributed initial position/velocity, supplied as
inputs since the model abstracts the random number generators. -/
structure LaunchDraw where
  dt : ℚ
  p0 : Vec3q
  v0 : Vec3q

/-- Gravity, the fixed acceleration of every generated projectile. -/
def gravityQ : Vec3q := ⟨0, 0, -49/5⟩

/-- Build the projectile of the given launch count and launch time. -/
def mkProjectile (c : ℕ) (t0 : ℚ) (d : LaunchDraw) : SimProjectile :=
  ⟨c, t0, d.p0, d.v0, gravityQ, d.p0⟩

/-- Modelled from the spec: the generator state — the number of
projectiles generated so far (`count`), the simulated time, the map of
active projectiles keyed by identifier, and the single pending
not-yet-launched projectile (`pendingProjectile` guarded by
`pendingProjectileExists`, modelled as an option). -/
structure GenState where
  count : ℕ
  t : ℚ
  projectiles : List (ℕ × SimProjectile)
  pendingProjectile : Option SimProjectile

/-- `pendingProjectileExists` is true exactly when the pending projectile
is valid. -/
def pendingProjectileExists (gs : GenState) : Bool :=
  gs.pendingProjectile.isSome

/-- Modelled from the spec: `getNextProjectile()` returns the next
scheduled launch, pre-generating and holding it pending when none is
scheduled yet; the fresh projectile's identifier is the current launch
count, which is then incremented. -/
def getNextProjectile (gs : GenState) (d : LaunchDraw) :
    SimProjectile × GenState :=
  match gs.pendingProjectile with
  | some p => (p, gs)
  | none =>
      let p := mkProjectile gs.count (gs.t + d.dt) d
      (p, { gs with
              pendingProjectile := some p
              count := gs.count + 1 })

/-- Modelled from the spec: `update()` advances simulated time and, once
the pending launch's time has passed, promotes it into the active map and
schedules the next one (with identifier equal to the launch count, which
is incremented). -/
def update (gs : GenState) (tNew : ℚ) (d : LaunchDraw) : GenState :=
  match gs.pendingProjectile with
  | none =>
      { gs with
          t := tNew
          pendingProjectile := some (mkProjectile gs.count (tNew + d.dt) d)
          count := gs.count + 1 }
  | some p =>
      if p.t0 ≤ tNew then
        { gs with
            t := tNew
            projectiles := (p.id, p) :: gs.projectiles
            pendingProjectile := some (mkProjectile gs.count (tNew + d.dt) d)
            count := gs.count + 1 }
      else { gs with t := tNew }

/-- The initial generator state. -/
def initGen : GenState := ⟨0, 0, [], none⟩

/-- The generator's identifier discipline: map keys equal the stored
identifiers and are below the launch count, the pending projectile's
identifier is below the count and above every key in the map, and the
keys are pairwise distinct. -/
def GoodGen (gs : GenState) : Prop :=
  (∀ pr ∈ gs.projectiles, pr.2.id = pr.1 ∧ pr.1 < gs.count) ∧
  (∀ p, gs.pendingProjectile = some p →
    p.id < gs.count ∧ ∀ pr ∈ gs.projectiles, pr.1 < p.id) ∧
  (gs.projectiles.map Prod.fst).Nodup

/-- Generator states reachable from the initial state by `update` and
`getNextProjectile` calls. -/
inductive GenReach : GenState → Prop where
  | init : GenReach initGen
  | step (gs : GenState) (tNew : ℚ) (d : LaunchDraw) :
      GenReach gs → GenReach (update gs tNew d)
  | next (gs : GenState) (d : LaunchDraw) :
      GenReach gs → GenReach (getNextProjectile gs d).2

/-- Concrete launch draw used for the C10 witness. -/
def draw0 : LaunchDraw where
  dt := 1
  p0 := ⟨4, 0, 1⟩
  v0 := ⟨-3, 0, 2⟩

theorem Vec3.mag_nonneg (a : Vec3) : 0 ≤ a.mag := Real.sqrt_nonneg _

theorem Vec3.mag_smul (c : ℝ) (a : Vec3) : (smul c a).mag = |c| * a.mag := by
  unfold mag smul
  have h : (c * a.x) ^ 2 + (c * a.y) ^ 2 + (c * a.z) ^ 2
      = c ^ 2 * (a.x ^ 2 + a.y ^ 2 + a.z ^ 2) := by ring
  rw [h, Real.sqrt_mul (sq_nonneg c), Real.sqrt_sq_eq_abs]

theorem baseTorque_length (oerr : Mat3 → Mat3 → Vec3) (rs : RobotState)
    (sp : Setpoint) (g : Gains) (m : ControlMode) (dof : ℕ)
    (h : ValidFor dof rs sp g) : (baseTorque oerr rs sp g m).length = dof := by
  obtain ⟨h1, h2, h3, h4, h5, h6, h7, h8, h9, h10, h11, h12⟩ := h
  cases m <;>
    simp [baseTorque, fullTaskSpaceControl, incrementalTaskSpaceControl,
      resolvedMotionRateControl, jointSpaceControl, jacobianTranspose,
      List.length_zipWith, List.length_zip, h1, h2, h3, h5, h6, h7] <;>
    omega

theorem computeTorque_length (oerr : Mat3 → Mat3 → Vec3) (rs : RobotState)
    (sp : Setpoint) (g : Gains) (m : ControlMode) (dof : ℕ)
    (h : ValidFor dof rs sp g) : (computeTorque oerr rs sp g m).length = dof := by
  have hb := baseTorque_length oerr rs sp g m dof h
  obtain ⟨h1, h2, h3, h4, h5, h6, h7, h8, h9, h10, h11, h12⟩ := h
  simp [computeTorque, applyTorqueLimits, applyJointLimitPotential,
    applyJointFriction, applyGravityCompensation, List.length_zipWith,
    List.length_zip, hb, h1, h2, h4, h8, h9, h10, h11] <;> omega

theorem applyTorqueLimits_getD (limits tau : List ℝ) (i : ℕ)
    (hL : i < limits.length) (hT : i < tau.length) :
    (applyTorqueLimits limits tau).getD i 0 =
      max (-(limits.getD i 0)) (min (limits.getD i 0) (tau.getD i 0)) := by
  have hZ : i < (applyTorqueLimits limits tau).length := by
    simp [applyTorqueLimits, List.length_zipWith]
    omega
  rw [List.getD_eq_getElem _ _ hZ, List.getD_eq_getElem _ _ hL,
    List.getD_eq_getElem _ _ hT]
  simp [applyTorqueLimits, List.getElem_zipWith]

/-- C1: for every valid robot state and every control mode, one control
cycle produces a torque vector of exactly `dof` entries, and after the
limiting stage every entry `j` lies within `[-limit_j, +limit_j]`. -/
theorem c1_computeTorque_dof_and_limits (oerr : Mat3 → Mat3 → Vec3)
    (rs : RobotState) (sp : Setpoint) (g : Gains) (m : ControlMode) (dof : ℕ)
    (h : ValidFor dof rs sp g) :
    (computeTorque oerr rs sp g m).length = dof ∧
    ∀ i, i < dof →
      -(g.tau_limit.getD i 0) ≤ (computeTorque oerr rs sp g m).getD i 0 ∧
      (computeTorque oerr rs sp g m).getD i 0 ≤ g.tau_limit.getD i 0 := by
  have hb := baseTorque_length oerr rs sp g m dof h
  have hlen := computeTorque_length oerr rs sp g m dof h
  obtain ⟨h1, h2, h3, h4, h5, h6, h7, h8, h9, h10, h11, h12⟩ := h
  refine ⟨hlen, fun i hi => ?_⟩
  have hTlen : (applyJointLimitPotential g rs.q (applyJointFriction g.kv_friction
      rs.dq (applyGravityCompensation rs.g_q (baseTorque oerr rs sp g m)))).length
      = dof := by
    simp [applyJointLimitPotential, applyJointFriction, applyGravityCompensation,
      List.length_zipWith, List.length_zip, hb, h1, h2, h4, h9, h10, h11] <;> omega
  have hkey : (computeTorque oerr rs sp g m).getD i 0 =
      max (-(g.tau_limit.getD i 0)) (min (g.tau_limit.getD i 0)
        ((applyJointLimitPotential g rs.q (applyJointFriction g.kv_friction rs.dq
          (applyGravityCompensation rs.g_q (baseTorque oerr rs sp g m)))).getD i 0)) :=
    applyTorqueLimits_getD _ _ i (by omega) (by omega)
  have hnn : 0 ≤ g.tau_limit.getD i 0 := by
    have hiL : i < g.tau_limit.length := by omega
    rw [List.getD_eq_getElem _ _ hiL]
    exact h12 _ (List.getElem_mem hiL)
  rw [hkey]
  constructor
  · exact le_max_left _ _
  · exact max_le (by linarith) (min_le_left _ _)

theorem valid0 : ValidFor 1 rs0 sp0 g0 := by
  refine ⟨?_, ?_, ?_, ?_, ?_, ?_, ?_, ?_, ?_, ?_, ?_, ?_⟩ <;>
    simp [rs0, sp0, g0]

/-- Witness for C1 at a concrete one-joint state. -/
theorem c1_witness :
    ValidFor 1 rs0 sp0 g0 ∧
    ((computeTorque oerr0 rs0 sp0 g0 ControlMode.jointSpace).length = 1 ∧
      ∀ i, i < 1 →
        -(g0.tau_limit.getD i 0) ≤
          (computeTorque oerr0 rs0 sp0 g0 ControlMode.jointSpace).getD i 0 ∧
        (computeTorque oerr0 rs0 sp0 g0 ControlMode.jointSpace).getD i 0 ≤
          g0.tau_limit.getD i 0) :=
  ⟨valid0, c1_computeTorque_dof_and_limits oerr0 rs0 sp0 g0
    ControlMode.jointSpace 1 valid0⟩

/-- C2: for every control mode the compensation and limiting stages are
applied after the chosen strategy's base torque in the fixed order
gravity compensation, friction damping, joint-limit potential, torque
clamp; the joint-limit restoring torque is zero in the joint's interior
and bounded in magnitude by the saturation value; the final clamp is an
independent per-component hard saturation. -/
theorem c2_pipeline_order_and_stages (oerr : Mat3 → Mat3 → Vec3)
    (rs : RobotState) (sp : Setpoint) (g : Gains) (m : ControlMode)
    (qmin qmax margin gain sat qi : ℝ) (limits tau : List ℝ) (i : ℕ)
    (hgain : 0 ≤ gain) (hsat : 0 ≤ sat)
    (hL : i < limits.length) (hT : i < tau.length) :
    computeTorque oerr rs sp g m =
      applyTorqueLimits g.tau_limit
        (applyJointLimitPotential g rs.q
          (applyJointFriction g.kv_friction rs.dq
            (applyGravityCompensation rs.g_q
              (baseTorque oerr rs sp g m)))) ∧
    (qmin + margin ≤ qi → qi ≤ qmax - margin →
      jointLimitTorque qmin qmax margin gain sat qi = 0) ∧
    |jointLimitTorque qmin qmax margin gain sat qi| ≤ sat ∧
    (applyTorqueLimits limits tau).getD i 0 =
      max (-(limits.getD i 0)) (min (limits.getD i 0) (tau.getD i 0)) ∧
    (-(limits.getD i 0) ≤ tau.getD i 0 → tau.getD i 0 ≤ limits.getD i 0 →
      (applyTorqueLimits limits tau).getD i 0 = tau.getD i 0) := by
  refine ⟨rfl, ?_, ?_, applyTorqueLimits_getD limits tau i hL hT, ?_⟩
  · intro hlo hhi
    unfold jointLimitTorque
    rw [if_neg (by linarith), if_neg (by linarith)]
  · unfold jointLimitTorque
    split_ifs with hb1 hb2
    · have hx : 0 ≤ gain * (qmin + margin - qi) := by nlinarith
      have h0 : 0 ≤ min sat (gain * (qmin + margin - qi)) := le_min hsat hx
      rw [abs_of_nonneg h0]
      exact min_le_left _ _
    · have hx : 0 ≤ gain * (qi - (qmax - margin)) := by nlinarith
      have h0 : 0 ≤ min sat (gain * (qi - (qmax - margin))) := le_min hsat hx
      rw [abs_neg, abs_of_nonneg h0]
      exact min_le_left _ _
    · simpa using hsat
  · intro hlo hhi
    rw [applyTorqueLimits_getD limits tau i hL hT, min_eq_right hhi,
      max_eq_right hlo]

/-- Witness for C2 at concrete inputs. -/
theorem c2_witness :
    (0:ℝ) ≤ 1 ∧ 0 < (1:ℕ) ∧
    (computeTorque oerr0 rs0 sp0 g0 ControlMode.fullTaskSpace =
      applyTorqueLimits g0.tau_limit
        (applyJointLimitPotential g0 rs0.q
          (applyJointFriction g0.kv_friction rs0.dq
            (applyGravityCompensation rs0.g_q
              (baseTorque oerr0 rs0 sp0 g0 ControlMode.fullTaskSpace)))) ∧
    ((0:ℝ) + (1/4) ≤ 1/2 → (1:ℝ)/2 ≤ 1 - 1/4 →
      jointLimitTorque 0 1 (1/4) 1 1 (1/2) = 0) ∧
    |jointLimitTorque 0 1 (1/4) 1 1 (1/2)| ≤ 1 ∧
    (applyTorqueLimits [(1:ℝ)] [0]).getD 0 0 =
      max (-(([(1:ℝ)]).getD 0 0)) (min (([(1:ℝ)]).getD 0 0) (([(0:ℝ)]).getD 0 0)) ∧
    (-(([(1:ℝ)]).getD 0 0) ≤ ([(0:ℝ)]).getD 0 0 →
      ([(0:ℝ)]).getD 0 0 ≤ ([(1:ℝ)]).getD 0 0 →
      (applyTorqueLimits [(1:ℝ)] [0]).getD 0 0 = ([(0:ℝ)]).getD 0 0)) :=
  ⟨by norm_num, by norm_num,
    c2_pipeline_order_and_stages oerr0 rs0 sp0 g0 ControlMode.fullTaskSpace
      0 1 (1/4) 1 1 (1/2) [1] [0] 0 (by norm_num) (by norm_num)
      (by norm_num) (by norm_num)⟩

/-- C3: the incremental-mode clamp scales an oversized error down to
magnitude exactly the configured maximum step keeping its direction,
passes an error of magnitude at most the step through unchanged, and the
incremental strategy feeds exactly the clamped errors into the task-space
force law. -/
theorem c3_incremental_clamp (s : ℝ) (v : Vec3) (oerr : Mat3 → Mat3 → Vec3)
    (rs : RobotState) (sp : Setpoint) (g : Gains) (hs : 0 < s) :
    (s < v.mag →
      (clampMag s v).mag = s ∧ ∃ c, 0 < c ∧ clampMag s v = Vec3.smul c v) ∧
    (v.mag ≤ s → clampMag s v = v) ∧
    incrementalTaskSpaceControl oerr rs sp g =
      jacobianTranspose rs.J
        (taskForce g (clampMag g.max_step_pos (posErr rs sp))
          (clampMag g.max_step_rot (oerr rs.R_c sp.R_d)) rs.v rs.omega) := by
  refine ⟨?_, ?_, rfl⟩
  · intro hbig
    have hmpos : 0 < v.mag := lt_trans hs hbig
    have hne : ¬ v.mag ≤ s := not_le.mpr hbig
    have hcpos : 0 < s / v.mag := div_pos hs hmpos
    refine ⟨?_, s / v.mag, hcpos, ?_⟩
    · rw [clampMag, if_neg hne, Vec3.mag_smul, abs_of_nonneg (le_of_lt hcpos),
        div_mul_cancel₀ _ (ne_of_gt hmpos)]
    · rw [clampMag, if_neg hne]
  · intro hsmall
    rw [clampMag, if_pos hsmall]

theorem mag_300 : Vec3.mag ⟨3, 0, 0⟩ = 3 := by
  unfold Vec3.mag
  rw [show (3:ℝ) ^ 2 + 0 ^ 2 + 0 ^ 2 = 3 ^ 2 by norm_num, Real.sqrt_sq]
  norm_num

/-- Witness for C3 at the concrete error vector (3,0,0) with step 1. -/
theorem c3_witness :
    (0:ℝ) < 1 ∧ (1:ℝ) < Vec3.mag ⟨3, 0, 0⟩ ∧
    ((1 < Vec3.mag ⟨3, 0, 0⟩ →
      (clampMag 1 ⟨3, 0, 0⟩).mag = 1 ∧
      ∃ c, 0 < c ∧ clampMag 1 ⟨3, 0, 0⟩ = Vec3.smul c ⟨3, 0, 0⟩) ∧
    (Vec3.mag ⟨3, 0, 0⟩ ≤ 1 → clampMag 1 ⟨3, 0, 0⟩ = ⟨3, 0, 0⟩) ∧
    incrementalTaskSpaceControl oerr0 rs0 sp0 g0 =
      jacobianTranspose rs0.J
        (taskForce g0 (clampMag g0.max_step_pos (posErr rs0 sp0))
          (clampMag g0.max_step_rot (oerr0 rs0.R_c sp0.R_d)) rs0.v rs0.omega)) :=
  ⟨by norm_num, by rw [mag_300]; norm_num,
    c3_incremental_clamp 1 ⟨3, 0, 0⟩ oerr0 rs0 sp0 g0 (by norm_num)⟩

/-- C5: expiry holds exactly on ground crossing or measurement timeout; a
trajectory with ground contact at t = 2 (descending, gravity pointing
down) reports expired at every later time; and the snapshot after a tick
never contains an expired entry. -/
theorem c5_expiry_policy (pr : SimProjectile) (lastMeas timeout t : ℚ)
    (m : ProjectileManager) (tc : ℚ)
    (hz2 : (predictPos pr 2).z = 0)
    (hdesc : pr.v0.z + pr.a0.z * (2 - pr.t0) ≤ 0)
    (hgrav : pr.a0.z ≤ 0) :
    (isExpired pr lastMeas timeout t = true ↔
      ((predictPos pr t).z ≤ 0 ∨ timeout < t - lastMeas)) ∧
    (2 < t → isExpired pr lastMeas timeout t = true) ∧
    (∀ e ∈ (m.tick tc).snapshot, isExpired e.proj e.lastMeas m.timeout tc = false) := by
  refine ⟨by simp [isExpired], ?_, ?_⟩
  · intro ht
    have hA : (pr.v0.z + pr.a0.z * (2 - pr.t0)) * (t - 2) ≤ 0 :=
      mul_nonpos_of_nonpos_of_nonneg hdesc (by linarith)
    have hB : pr.a0.z * (t - 2) ^ 2 ≤ 0 :=
      mul_nonpos_of_nonpos_of_nonneg hgrav (sq_nonneg _)
    have hz : (predictPos pr t).z ≤ 0 := by
      simp only [predictPos] at hz2 ⊢
      nlinarith [hz2, hA, hB]
    simp [isExpired, hz]
  · intro e he
    have he2 : e ∈ m.entries.filter
        (fun e => !(isExpired e.proj e.lastMeas m.timeout tc)) := he
    have hfe := List.mem_filter.mp he2
    simpa using hfe.2

/-- Witness for C5 at the concrete landing trajectory and time 3. -/
theorem c5_witness :
    (predictPos prLand 2).z = 0 ∧
    prLand.v0.z + prLand.a0.z * (2 - prLand.t0) ≤ 0 ∧
    prLand.a0.z ≤ 0 ∧
    ((isExpired prLand 0 10 3 = true ↔
      ((predictPos prLand 3).z ≤ 0 ∨ (10:ℚ) < 3 - 0)) ∧
    ((2:ℚ) < 3 → isExpired prLand 0 10 3 = true) ∧
    (∀ e ∈ (ProjectileManager.tick ⟨[⟨prLand, 0⟩], 10⟩ 3).snapshot,
      isExpired e.proj e.lastMeas (ProjectileManager.timeout ⟨[⟨prLand, 0⟩], 10⟩) 3
        = false)) :=
  ⟨by norm_num [predictPos, prLand], by norm_num [prLand], by norm_num [prLand],
    c5_expiry_policy prLand 0 10 3 ⟨[⟨prLand, 0⟩], 10⟩ 3
      (by norm_num [predictPos, prLand]) (by norm_num [prLand])
      (by norm_num [prLand])⟩

theorem betterCand_self (c : Candidate) : betterCand c c = false := by
  cases h : c.itime <;> simp [betterCand, h]

theorem selStep_skip (acc : Option Candidate) (c : Candidate)
    (hE : eligible c = false) : selStep acc c = acc := by
  simp [selStep, hE]

theorem selStep_start (c : Candidate) (hE : eligible c = true) :
    selStep none c = some c := by
  simp [selStep, hE]

theorem selStep_won (c a : Candidate) (hE : eligible c = true)
    (hbc : betterCand c a = true) : selStep (some a) c = some c := by
  simp [selStep, hE, hbc]

theorem selStep_lost (c a : Candidate) (hE : eligible c = true)
    (hbc : betterCand c a = false) : selStep (some a) c = some a := by
  simp [selStep, hE, hbc]

theorem eligible_time (c : Candidate) (hE : eligible c = true) :
    ∃ tc, c.itime = some tc := by
  have h := (Bool.and_eq_true _ _).mp (by simpa [eligible] using hE)
  exact Option.isSome_iff_exists.mp h.2

theorem betterCand_true_iff (c b : Candidate) (tc tb : ℚ)
    (hc : c.itime = some tc) (hb : b.itime = some tb) :
    betterCand c b = true ↔ (tc < tb ∨ (tc = tb ∧ c.proj.id < b.proj.id)) := by
  simp [betterCand, hc, hb]

theorem betterCand_false_iff (c b : Candidate) (tc tb : ℚ)
    (hc : c.itime = some tc) (hb : b.itime = some tb) :
    betterCand c b = false ↔ (tb ≤ tc ∧ (tc = tb → b.proj.id ≤ c.proj.id)) := by
  rw [← Bool.not_eq_true, betterCand_true_iff c b tc tb hc hb]
  constructor
  · intro h
    push_neg at h
    exact h
  · intro h
    push_neg
    exact h

theorem betterCand_false_trans (a b c : Candidate) (ta tb tc : ℚ)
    (ha : a.itime = some ta) (hb : b.itime = some tb) (hc : c.itime = some tc)
    (h1 : betterCand a b = false) (h2 : betterCand b c = false) :
    betterCand a c = false := by
  rw [betterCand_false_iff a b ta tb ha hb] at h1
  rw [betterCand_false_iff b c tb tc hb hc] at h2
  rw [betterCand_false_iff a c ta tc ha hc]
  obtain ⟨h1t, h1i⟩ := h1
  obtain ⟨h2t, h2i⟩ := h2
  refine ⟨by linarith, fun he => ?_⟩
  have hab : ta = tb := by linarith
  have hbc : tb = tc := by linarith
  have := h1i hab
  have := h2i hbc
  omega

theorem betterCand_true_false (c b r : Candidate) (tc tb tr : ℚ)
    (hc : c.itime = some tc) (hb : b.itime = some tb) (hr : r.itime = some tr)
    (h1 : betterCand c b = true) (h2 : betterCand c r = false) :
    betterCand b r = false := by
  rw [betterCand_true_iff c b tc tb hc hb] at h1
  rw [betterCand_false_iff c r tc tr hc hr] at h2
  rw [betterCand_false_iff b r tb tr hb hr]
  obtain ⟨h2t, h2i⟩ := h2
  rcases h1 with h | ⟨heq, hid⟩
  · refine ⟨by linarith, fun he => ?_⟩
    exfalso
    linarith
  · refine ⟨by linarith, fun he => ?_⟩
    have h1 : tc = tr := by linarith
    have := h2i h1
    omega

theorem foldl_selStep_spec (l : List Candidate) (acc : Option Candidate)
    (hacc : ∀ b, acc = some b → eligible b = true) :
    (∀ r, l.foldl selStep acc = some r → eligible r = true) ∧
    (l.foldl selStep acc = none → acc = none ∧ ∀ c ∈ l, eligible c = false) ∧
    (∀ r, l.foldl selStep acc = some r → acc = some r ∨ r ∈ l) ∧
    (∀ r, l.foldl selStep acc = some r →
      (∀ b, acc = some b → betterCand b r = false) ∧
      ∀ c ∈ l, eligible c = true → betterCand c r = false) := by
  induction l generalizing acc with
  | nil =>
      refine ⟨fun r hr => hacc r hr, fun hr => ⟨hr, by simp⟩,
        fun r hr => Or.inl hr, fun r hr => ⟨?_, by simp⟩⟩
      intro b hb
      rw [List.foldl_nil] at hr
      rw [hb] at hr
      injection hr with h
      rw [h]
      exact betterCand_self r
  | cons c l ih =>
      have hstep : ∀ b, selStep acc c = some b → eligible b = true := by
        intro b hb
        cases hE : eligible c with
        | false =>
            rw [selStep_skip acc c hE] at hb
            exact hacc b hb
        | true =>
            cases hA : acc with
            | none =>
                rw [hA, selStep_start c hE] at hb
                injection hb with h
                rw [← h]
                exact hE
            | some a =>
                cases hbc : betterCand c a with
                | true =>
                    rw [hA, selStep_won c a hE hbc] at hb
                    injection hb with h
                    rw [← h]
                    exact hE
                | false =>
                    rw [hA, selStep_lost c a hE hbc] at hb
                    injection hb with h
                    rw [← h]
                    exact hacc a hA
      obtain ⟨ih0, ih1, ih2, ih3⟩ := ih (selStep acc c) hstep
      have hfold : (c :: l).foldl selStep acc = l.foldl selStep (selStep acc c) :=
        rfl
      refine ⟨?_, ?_, ?_, ?_⟩
      · intro r hr
        rw [hfold] at hr
        exact ih0 r hr
      · intro hr
        rw [hfold] at hr
        obtain ⟨hnone, hall⟩ := ih1 hr
        cases hE : eligible c with
        | true =>
            exfalso
            cases hA : acc with
            | none => rw [hA, selStep_start c hE] at hnone; cases hnone
            | some a =>
                cases hbc : betterCand c a with
                | true => rw [hA, selStep_won c a hE hbc] at hnone; cases hnone
                | false => rw [hA, selStep_lost c a hE hbc] at hnone; cases hnone
        | false =>
            have haccn : acc = none := by
              rw [selStep_skip acc c hE] at hnone
              exact hnone
            refine ⟨haccn, ?_⟩
            intro d hd
            rcases List.mem_cons.mp hd with h | h
            · rw [h]; exact hE
            · exact hall d h
      · intro r hr
        rw [hfold] at hr
        rcases ih2 r hr with h | h
        · cases hE : eligible c with
          | false =>
              rw [selStep_skip acc c hE] at h
              exact Or.inl h
          | true =>
              cases hA : acc with
              | none =>
                  rw [hA, selStep_start c hE] at h
                  injection h with h
                  rw [← h]
                  exact Or.inr (List.mem_cons_self _ _)
              | some a =>
                  cases hbc : betterCand c a with
                  | true =>
                      rw [hA, selStep_won c a hE hbc] at h
                      injection h with h
                      rw [← h]
                      exact Or.inr (List.mem_cons_self _ _)
                  | false =>
                      rw [hA, selStep_lost c a hE hbc] at h
                      injection h with h
                      exact Or.inl (by rw [h])
        · exact Or.inr (List.mem_cons_of_mem _ h)
      · intro r hr
        rw [hfold] at hr
        obtain ⟨ihacc, ihlist⟩ := ih3 r hr
        have hrE : eligible r = true := ih0 r hr
        obtain ⟨tr, htr⟩ := eligible_time r hrE
        constructor
        · intro b hb
          cases hE : eligible c with
          | false =>
              apply ihacc
              rw [selStep_skip acc c hE]
              exact hb
          | true =>
              obtain ⟨tc2, htc2⟩ := eligible_time c hE
              have hbE : eligible b = true := hacc b hb
              obtain ⟨tb2, htb2⟩ := eligible_time b hbE
              cases hbc : betterCand c b with
              | true =>
                  have hcr : betterCand c r = false := by
                    apply ihacc
                    rw [hb, selStep_won c b hE hbc]
                  exact betterCand_true_false c b r tc2 tb2 tr htc2 htb2 htr hbc hcr
              | false =>
                  apply ihacc
                  rw [hb, selStep_lost c b hE hbc]
        · intro d hd hdE
          rcases List.mem_cons.mp hd with h | h
          · rw [h] at hdE ⊢
            cases hA : acc with
            | none =>
                apply ihacc
                rw [hA, selStep_start c hdE]
            | some a =>
                obtain ⟨tc2, htc2⟩ := eligible_time c hdE
                cases hbc : betterCand c a with
                | true =>
                    apply ihacc
                    rw [hA, selStep_won c a hdE hbc]
                | false =>
                    have haE : eligible a = true := hacc a hA
                    obtain ⟨ta2, hta2⟩ := eligible_time a haE
                    have har : betterCand a r = false := by
                      apply ihacc
                      rw [hA, selStep_lost c a hdE hbc]
                    exact betterCand_false_trans c a r tc2 ta2 tr htc2 hta2 htr hbc har
          · exact ihlist d h hdE

/-- C4: target selection considers only confirmed projectiles with an
earliest reachable intercept time, returns the one with the smallest such
time with ties broken by lowest identifier, and returns none when no
candidate is eligible. -/
theorem c4_target_selection (cands : List Candidate) (ws : Workspace) (now : ℚ)
    (hfaith : ∀ c ∈ cands, ∀ tc, c.itime = some tc →
      IsEarliestIntercept ws c.proj now tc) :
    ((∀ c ∈ cands, eligible c = false) → select cands = none) ∧
    (∀ r, select cands = some r →
      r ∈ cands ∧ r.confirmed = true ∧
      ∃ tr, r.itime = some tr ∧ IsEarliestIntercept ws r.proj now tr ∧
        ∀ c ∈ cands, ∀ tc, c.confirmed = true → c.itime = some tc →
          (tr < tc ∨ (tr = tc ∧ r.proj.id ≤ c.proj.id))) ∧
    (∀ c1 c2 : Candidate, ∀ tt : ℚ, c1.confirmed = true → c2.confirmed = true →
      c1.itime = some tt → c2.itime = some tt → c1.proj.id < c2.proj.id →
      select [c1, c2] = some c1) := by
  obtain ⟨mElig, mNone, mMem, mMin⟩ :=
    foldl_selStep_spec cands none (fun b hb => by cases hb)
  refine ⟨?_, ?_, ?_⟩
  · intro hall
    cases hres : select cands with
    | none => rfl
    | some r =>
        have hE := mElig r hres
        rcases mMem r hres with h | h
        · cases h
        · rw [hall r h] at hE
          cases hE
  · intro r hr
    have hE := mElig r hr
    have hM : r ∈ cands := by
      rcases mMem r hr with h | h
      · cases h
      · exact h
    have hMin := (mMin r hr).2
    have hconf := (Bool.and_eq_true _ _).mp (by simpa [eligible] using hE)
    obtain ⟨tr, htr⟩ := Option.isSome_iff_exists.mp hconf.2
    refine ⟨hM, hconf.1, tr, htr, hfaith r hM tr htr, ?_⟩
    intro cc hcc tcc hccf hcct
    have hbf := hMin cc hcc (by simp [eligible, hccf, hcct])
    rw [betterCand_false_iff cc r tcc tr hcct htr] at hbf
    obtain ⟨hb1, hb2⟩ := hbf
    rcases lt_trichotomy tr tcc with h | h | h
    · exact Or.inl h
    · exact Or.inr ⟨h, by have := hb2 h.symm; omega⟩
    · exact absurd hb1 (not_le.mpr h)
  · intro c1 c2 tt h1c h2c h1t h2t hid
    have hE1 : eligible c1 = true := by simp [eligible, h1c, h1t]
    have hE2 : eligible c2 = true := by simp [eligible, h2c, h2t]
    have hbc : betterCand c2 c1 = false := by
      rw [betterCand_false_iff c2 c1 tt tt h2t h1t]
      exact ⟨le_refl _, fun _ => Nat.le_of_lt hid⟩
    show List.foldl selStep none [c1, c2] = some c1
    rw [show List.foldl selStep none [c1, c2] = selStep (selStep none c1) c2
        from rfl, selStep_start c1 hE1, selStep_lost c2 c1 hE2 hbc]

theorem hfaith0 : ∀ c ∈ cands0, ∀ tc, c.itime = some tc →
    IsEarliestIntercept ws0 c.proj 0 tc := by
  intro c hc tc htc
  rcases List.mem_cons.mp hc with h | h
  · rw [h] at htc ⊢
    injection htc with htc
    rw [← htc]
    refine ⟨by norm_num, ?_, ?_⟩
    · simp [reachableWS, dist2, predictPos, projA, ws0]
    · intro u hu hr
      simp [reachableWS, dist2, predictPos, projA, ws0] at hr
      nlinarith [hr, sq_nonneg (u - 1)]
  · rcases List.mem_singleton.mp h with h2
    rw [h2] at htc
    cases htc

/-- Witness for C4 at the concrete candidate list. -/
theorem c4_witness :
    (∀ c ∈ cands0, ∀ tc, c.itime = some tc →
      IsEarliestIntercept ws0 c.proj 0 tc) ∧
    (((∀ c ∈ cands0, eligible c = false) → select cands0 = none) ∧
    (∀ r, select cands0 = some r →
      r ∈ cands0 ∧ r.confirmed = true ∧
      ∃ tr, r.itime = some tr ∧ IsEarliestIntercept ws0 r.proj 0 tr ∧
        ∀ c ∈ cands0, ∀ tc, c.confirmed = true → c.itime = some tc →
          (tr < tc ∨ (tr = tc ∧ r.proj.id ≤ c.proj.id))) ∧
    (∀ c1 c2 : Candidate, ∀ tt : ℚ, c1.confirmed = true → c2.confirmed = true →
      c1.itime = some tt → c2.itime = some tt → c1.proj.id < c2.proj.id →
      select [c1, c2] = some c1)) :=
  ⟨hfaith0, c4_target_selection cands0 ws0 0 hfaith0⟩

/-- C8: with fewer than two measurement samples the estimator yields no
usable estimate (and raises no error, being total), and target selection
never returns an unconfirmed candidate. -/
theorem c8_underdetermined_unconfirmed (grav : Vec3q)
    (samples : List (ℚ × Vec3q)) (h : samples.length < 2) :
    fit grav samples = none ∧
    ∀ (cands : List Candidate) (r : Candidate), select cands = some r →
      r.confirmed = true := by
  constructor
  · simp [fit, h]
  · intro cands r hr
    have hE := (foldl_selStep_spec cands none (fun b hb => by cases hb)).1 r hr
    have hc := (Bool.and_eq_true _ _).mp (by simpa [eligible] using hE)
    exact hc.1

/-- Witness for C8 at the empty sample list. -/
theorem c8_witness :
    ([] : List (ℚ × Vec3q)).length < 2 ∧
    (fit ⟨0, 0, -49/5⟩ ([] : List (ℚ × Vec3q)) = none ∧
     ∀ (cands : List Candidate) (r : Candidate), select cands = some r →
       r.confirmed = true) :=
  ⟨by norm_num, c8_underdetermined_unconfirmed ⟨0, 0, -49/5⟩ [] (by norm_num)⟩

theorem stateMachine_preserves_inv (s : SMState) (inp : SMInput)
    (h : TargetInv s) : TargetInv (stateMachine inp s) := by
  cases hm : s.mode with
  | READY =>
      cases hs : inp.selected <;> simp [stateMachine, hm, hs, TargetInv]
  | TRACKING =>
      cases h1 : inp.targetInvalid <;> cases h2 : inp.withinThreshold <;>
        simp [stateMachine, hm, h1, h2, TargetInv]
  | INTERCEPTING =>
      cases h1 : inp.interceptElapsed <;>
        simp [stateMachine, hm, h1, TargetInv]
  | RECOVERING =>
      cases h1 : inp.atReady <;> simp [stateMachine, hm, h1, TargetInv]

/-- C6: in every reachable state of the interception state machine the
target reference is null in READY and RECOVERING (so it can be non-null
only in TRACKING or INTERCEPTING), and the invariant is preserved by
every evaluation. -/
theorem c6_target_null_invariant (s : SMState) (inp : SMInput)
    (h : SMReach s) :
    TargetInv s ∧ TargetInv (stateMachine inp s) := by
  have hinv : TargetInv s := by
    induction h with
    | init => intro _; rfl
    | step s2 inp2 _ ih => exact stateMachine_preserves_inv s2 inp2 ih
  exact ⟨hinv, stateMachine_preserves_inv s inp hinv⟩

/-- Witness for C6 at the initial state. -/
theorem c6_witness :
    SMReach ⟨InterceptionMode.READY, none⟩ ∧
    (TargetInv ⟨InterceptionMode.READY, none⟩ ∧
     TargetInv (stateMachine inp0 ⟨InterceptionMode.READY, none⟩)) :=
  ⟨SMReach.init,
    c6_target_null_invariant ⟨InterceptionMode.READY, none⟩ inp0 SMReach.init⟩

/-- C7: while the pause flag is set a control cycle leaves the stored
mode, the desired setpoint and the commanded torque unchanged, reads
return the frozen values, and unsetting the flag resumes from exactly
the stored mode (the resumed step computes the same mode, setpoint and
torque as if the paused step had never happened). -/
theorem c7_pause_freezes (oerr : Mat3 → Mat3 → Vec3) (inp : SMInput)
    (readySp interceptSp : Setpoint) (s : AppState) (h : s.paused = true) :
    (controlCycle oerr inp readySp interceptSp s).sm = s.sm ∧
    (controlCycle oerr inp readySp interceptSp s).setpoint = s.setpoint ∧
    (controlCycle oerr inp readySp interceptSp s).tau = s.tau ∧
    (controlCycle oerr inp readySp interceptSp s).robot = s.robot ∧
    (controlCycle oerr inp readySp interceptSp s).gains = s.gains ∧
    (controlCycle oerr inp readySp interceptSp s).cmode = s.cmode ∧
    (controlCycle oerr inp readySp interceptSp s).paused = true ∧
    ((controlCycle oerr inp readySp interceptSp
        { controlCycle oerr inp readySp interceptSp s with paused := false }).sm =
      (controlCycle oerr inp readySp interceptSp { s with paused := false }).sm ∧
     (controlCycle oerr inp readySp interceptSp
        { controlCycle oerr inp readySp interceptSp s with paused := false }).setpoint =
      (controlCycle oerr inp readySp interceptSp { s with paused := false }).setpoint ∧
     (controlCycle oerr inp readySp interceptSp
        { controlCycle oerr inp readySp interceptSp s with paused := false }).tau =
      (controlCycle oerr inp readySp interceptSp { s with paused := false }).tau) := by
  simp [controlCycle, h]

/-- Witness for C7 at the concrete paused state. -/
theorem c7_witness :
    app2.paused = true ∧
    ((controlCycle oerr0 inp0 sp0 sp0 app2).sm = app2.sm ∧
    (controlCycle oerr0 inp0 sp0 sp0 app2).setpoint = app2.setpoint ∧
    (controlCycle oerr0 inp0 sp0 sp0 app2).tau = app2.tau ∧
    (controlCycle oerr0 inp0 sp0 sp0 app2).robot = app2.robot ∧
    (controlCycle oerr0 inp0 sp0 sp0 app2).gains = app2.gains ∧
    (controlCycle oerr0 inp0 sp0 sp0 app2).cmode = app2.cmode ∧
    (controlCycle oerr0 inp0 sp0 sp0 app2).paused = true ∧
    ((controlCycle oerr0 inp0 sp0 sp0
        { controlCycle oerr0 inp0 sp0 sp0 app2 with paused := false }).sm =
      (controlCycle oerr0 inp0 sp0 sp0 { app2 with paused := false }).sm ∧
     (controlCycle oerr0 inp0 sp0 sp0
        { controlCycle oerr0 inp0 sp0 sp0 app2 with paused := false }).setpoint =
      (controlCycle oerr0 inp0 sp0 sp0 { app2 with paused := false }).setpoint ∧
     (controlCycle oerr0 inp0 sp0 sp0
        { controlCycle oerr0 inp0 sp0 sp0 app2 with paused := false }).tau =
      (controlCycle oerr0 inp0 sp0 sp0 { app2 with paused := false }).tau)) :=
  ⟨rfl, c7_pause_freezes oerr0 inp0 sp0 sp0 app2 rfl⟩

/-- C9: the per-cycle torque computation is a pure function of the robot
state, the desired setpoint, the gains and the mode — two states agreeing
on those fields produce identical torque output regardless of every
other stored field. -/
theorem c9_computeTorque_pure (oerr : Mat3 → Mat3 → Vec3) (s1 s2 : AppState)
    (hr : s1.robot = s2.robot) (hs : s1.setpoint = s2.setpoint)
    (hg : s1.gains = s2.gains) (hm : s1.cmode = s2.cmode) :
    computeTorqueOfApp oerr s1 = computeTorqueOfApp oerr s2 := by
  unfold computeTorqueOfApp
  rw [hr, hs, hg, hm]

/-- Witness for C9 at two concrete states differing in every field the
torque must not depend on. -/
theorem c9_witness :
    app1.robot = app2.robot ∧ app1.setpoint = app2.setpoint ∧
    app1.gains = app2.gains ∧ app1.cmode = app2.cmode ∧
    computeTorqueOfApp oerr0 app1 = computeTorqueOfApp oerr0 app2 :=
  ⟨rfl, rfl, rfl, rfl, c9_computeTorque_pure oerr0 app1 app2 rfl rfl rfl rfl⟩

theorem goodGen_update (gs : GenState) (tNew : ℚ) (d : LaunchDraw)
    (h : GoodGen gs) : GoodGen (update gs tNew d) := by
  obtain ⟨h1, h2, h3⟩ := h
  cases hp : gs.pendingProjectile with
  | none =>
      have e1 : (update gs tNew d).projectiles = gs.projectiles := by
        simp [update, hp]
      have e2 : (update gs tNew d).count = gs.count + 1 := by
        simp [update, hp]
      have e3 : (update gs tNew d).pendingProjectile =
          some (mkProjectile gs.count (tNew + d.dt) d) := by
        simp [update, hp]
      refine ⟨?_, ?_, ?_⟩
      · intro pr hpr
        rw [e1] at hpr
        rw [e2]
        obtain ⟨ha, hb⟩ := h1 pr hpr
        exact ⟨ha, Nat.lt_succ_of_lt hb⟩
      · intro p hpEq
        rw [e3] at hpEq
        injection hpEq with hpEq
        rw [e2, ← hpEq]
        refine ⟨by simp [mkProjectile], ?_⟩
        intro pr hpr
        rw [e1] at hpr
        simpa [mkProjectile] using (h1 pr hpr).2
      · rw [e1]
        exact h3
  | some p =>
      by_cases ht : p.t0 ≤ tNew
      · have e1 : (update gs tNew d).projectiles = (p.id, p) :: gs.projectiles := by
          simp [update, hp, ht]
        have e2 : (update gs tNew d).count = gs.count + 1 := by
          simp [update, hp, ht]
        have e3 : (update gs tNew d).pendingProjectile =
            some (mkProjectile gs.count (tNew + d.dt) d) := by
          simp [update, hp, ht]
        obtain ⟨hpc, hpk⟩ := h2 p hp
        refine ⟨?_, ?_, ?_⟩
        · intro pr hpr
          rw [e1] at hpr
          rw [e2]
          rcases List.mem_cons.mp hpr with hh | hh
          · rw [hh]
            exact ⟨rfl, Nat.lt_succ_of_lt hpc⟩
          · obtain ⟨ha, hb⟩ := h1 pr hh
            exact ⟨ha, Nat.lt_succ_of_lt hb⟩
        · intro p2 hp2
          rw [e3] at hp2
          injection hp2 with hp2
          rw [e2, ← hp2]
          refine ⟨by simp [mkProjectile], ?_⟩
          intro pr hpr
          rw [e1] at hpr
          rcases List.mem_cons.mp hpr with hh | hh
          · rw [hh]
            simpa [mkProjectile] using hpc
          · simpa [mkProjectile] using (h1 pr hh).2
        · rw [e1]
          rw [List.map_cons]
          refine List.nodup_cons.mpr ⟨?_, h3⟩
          intro hmem
          obtain ⟨pr, hpr, hpr2⟩ := List.mem_map.mp hmem
          have := hpk pr hpr
          omega
      · have e1 : update gs tNew d = { gs with t := tNew } := by
          simp [update, hp, ht]
        rw [e1]
        exact ⟨h1, fun p2 hp2 => h2 p2 hp2, h3⟩

theorem goodGen_next (gs : GenState) (d : LaunchDraw) (h : GoodGen gs) :
    GoodGen (getNextProjectile gs d).2 := by
  obtain ⟨h1, h2, h3⟩ := h
  cases hp : gs.pendingProjectile with
  | some p =>
      have e : (getNextProjectile gs d).2 = gs := by
        simp [getNextProjectile, hp]
      rw [e]
      exact ⟨h1, h2, h3⟩
  | none =>
      have e1 : (getNextProjectile gs d).2.projectiles = gs.projectiles := by
        simp [getNextProjectile, hp]
      have e2 : (getNextProjectile gs d).2.count = gs.count + 1 := by
        simp [getNextProjectile, hp]
      have e3 : (getNextProjectile gs d).2.pendingProjectile =
          some (mkProjectile gs.count (gs.t + d.dt) d) := by
        simp [getNextProjectile, hp]
      refine ⟨?_, ?_, ?_⟩
      · intro pr hpr
        rw [e1] at hpr
        rw [e2]
        obtain ⟨ha, hb⟩ := h1 pr hpr
        exact ⟨ha, Nat.lt_succ_of_lt hb⟩
      · intro p2 hp2
        rw [e3] at hp2
        injection hp2 with hp2
        rw [e2, ← hp2]
        refine ⟨by simp [mkProjectile], ?_⟩
        intro pr hpr
        rw [e1] at hpr
        simpa [mkProjectile] using (h1 pr hpr).2
      · rw [e1]
        exact h3

theorem genReach_good (gs : GenState) (h : GenReach gs) : GoodGen gs := by
  induction h with
  | init => exact ⟨by simp [initGen], by simp [initGen], by simp [initGen]⟩
  | step gs2 tNew d _ ih => exact goodGen_update gs2 tNew d ih
  | next gs2 d _ ih => exact goodGen_next gs2 d ih

/-- C10: in every reachable generator state the stored identifiers equal
their keys and come from the strictly increasing launch count, all keys
are distinct, promoting the pending launch never overwrites an existing
entry, the launch count never decreases (and strictly increases whenever
a launch is scheduled), the projectile returned by `getNextProjectile`
has an identifier below the updated count, and `pendingProjectileExists`
is true exactly when a pending projectile is present. -/
theorem c10_generator_identifiers (gs : GenState) (tNew : ℚ) (d : LaunchDraw)
    (h : GenReach gs) :
    (∀ pr ∈ gs.projectiles, pr.2.id = pr.1 ∧ pr.1 < gs.count) ∧
    (gs.projectiles.map Prod.fst).Nodup ∧
    (∀ p, gs.pendingProjectile = some p →
      ∀ pr ∈ gs.projectiles, pr.1 ≠ p.id) ∧
    gs.count ≤ (update gs tNew d).count ∧
    (gs.pendingProjectile = none → (update gs tNew d).count = gs.count + 1) ∧
    (getNextProjectile gs d).1.id < (getNextProjectile gs d).2.count ∧
    (pendingProjectileExists gs = true ↔ ∃ p, gs.pendingProjectile = some p) := by
  obtain ⟨h1, h2, h3⟩ := genReach_good gs h
  refine ⟨h1, h3, ?_, ?_, ?_, ?_, ?_⟩
  · intro p hp pr hpr
    have := (h2 p hp).2 pr hpr
    omega
  · cases hp : gs.pendingProjectile with
    | none => simp [update, hp]
    | some p =>
        by_cases ht : p.t0 ≤ tNew <;> simp [update, hp, ht]
  · intro hp
    simp [update, hp]
  · cases hp : gs.pendingProjectile with
    | some p =>
        have e : getNextProjectile gs d = (p, gs) := by
          simp [getNextProjectile, hp]
        rw [e]
        exact (h2 p hp).1
    | none =>
        have e : (getNextProjectile gs d).1 =
            mkProjectile gs.count (gs.t + d.dt) d := by
          simp [getNextProjectile, hp]
        have e2 : (getNextProjectile gs d).2.count = gs.count + 1 := by
          simp [getNextProjectile, hp]
        rw [e, e2]
        simp [mkProjectile]
  · exact ⟨fun hh => Option.isSome_iff_exists.mp hh,
      fun ⟨p, hp⟩ => by simp [pendingProjectileExists, hp]⟩

/-- Witness for C10 at the state reached by one `update` from the initial
state. -/
theorem c10_witness :
    GenReach (update initGen 0 draw0) ∧
    ((∀ pr ∈ (update initGen 0 draw0).projectiles,
        pr.2.id = pr.1 ∧ pr.1 < (update initGen 0 draw0).count) ∧
    ((update initGen 0 draw0).projectiles.map Prod.fst).Nodup ∧
    (∀ p, (update initGen 0 draw0).pendingProjectile = some p →
      ∀ pr ∈ (update initGen 0 draw0).projectiles, pr.1 ≠ p.id) ∧
    (update initGen 0 draw0).count ≤
      (update (update initGen 0 draw0) 2 draw0).count ∧
    ((update initGen 0 draw0).pendingProjectile = none →
      (update (update initGen 0 draw0) 2 draw0).count =
        (update initGen 0 draw0).count + 1) ∧
    (getNextProjectile (update initGen 0 draw0) draw0).1.id <
      (getNextProjectile (update initGen 0 draw0) draw0).2.count ∧
    (pendingProjectileExists (update initGen 0 draw0) = true ↔
      ∃ p, (update initGen 0 draw0).pendingProjectile = some p)) :=
  ⟨GenReach.step initGen 0 draw0 GenReach.init,
    c10_generator_identifiers (update initGen 0 draw0) 2 draw0
      (GenReach.step initGen 0 draw0 GenReach.init)⟩

end IronDome
